import Mathlib

/-!
Verification of the `gen-id` identifier codec (src/lib.rs).

The library packs five logical fields into a single 64-bit identifier,
least-significant bits first:

  config_tag (3 bits) | sequence (10 bits) | shard (shard_bits) |
  node (node_bits) | time (epoch_bits, high end silently truncated to
  what fits below bit 64)

We embed the code shallowly over `Nat`.  Rust `u64` arithmetic is modelled
by explicit `% 2 ^ 64` at the operations that can overflow (left shifts);
Rust `u16` wrap-around by `% 65536`.  Rust code paths that panic
(`checked_sub(..).expect`, the explicit `panic!`s in `derive_sharded_id`,
and debug-mode shift-amount overflow, which aborts when a shift amount
reaches the bit width) are modelled by `Except GenError`.  The
`AtomicU16` sequence counter is threaded through `next_id` as explicit
state; the wall clock is an explicit `millis` argument.
-/

namespace GenId

/-- Error taxonomy for the panicking code paths of the Rust source:
`clockBeforeEpoch` models `checked_sub(..).expect("Time went backwards")`,
`shardingUnsupported` and `shardOutOfRange` model the two `panic!`s in
`derive_sharded_id`, and `shiftOverflow` models the debug-mode abort a
Rust shift performs when its shift amount is `≥ 64` (for `u64`) or
`≥ 32` (for `i32`). -/
inductive GenError where
  | clockBeforeEpoch
  | shardingUnsupported
  | shardOutOfRange
  | shiftOverflow
deriving DecidableEq

/-- The immutable configuration part of the Rust `IdGenerator` struct.
The `AtomicU16` field `next_id` (the sequence counter) is mutable state
and is threaded explicitly through `next_id` below instead. -/
structure IdGenerator where
  epoch : Nat
  epoch_bits : Nat
  node_bits : Nat
  shard_bits : Nat
  max_nodes : Nat
  config_id : Nat
deriving DecidableEq

/-- The Rust `DecodedId` struct (`time`, `node_id`, `shard_id`,
`incrementing_id`, `config_id`). -/
structure DecodedId where
  time : Nat
  node_id : Nat
  shard_id : Nat
  incrementing_id : Nat
  config_id : Nat
deriving DecidableEq

/-- The Rust `ConfigPreset` enum.  `custom` carries
`(epoch, epoch_bits, node_bits, shard_bits, config_id)`. -/
inductive ConfigPreset where
  | shortEpochMaxNodes
  | shardedConfig
  | custom (epoch epoch_bits node_bits shard_bits config_id : Nat)

/-- The `ShortEpochMaxNodes` preset built by `IdGenerator::new`:
`epoch_bits = 37`, `node_bits = 14`, `shard_bits = 0`,
`max_nodes = 16384`, `config_id = 3`. -/
def shortEpochMaxNodesGen (epoch : Nat) : IdGenerator :=
  { epoch := epoch
    epoch_bits := 37
    node_bits := 14
    shard_bits := 0
    max_nodes := 16384
    config_id := 3 }

/-- The `ShardedConfig` preset built by `IdGenerator::new`:
`epoch_bits = 32`, `node_bits = 14`, `shard_bits = 5`,
`max_nodes = 16384`, `config_id = 1`. -/
def shardedGen (epoch : Nat) : IdGenerator :=
  { epoch := epoch
    epoch_bits := 32
    node_bits := 14
    shard_bits := 5
    max_nodes := 16384
    config_id := 1 }

/-- Rust `IdGenerator::new`.  The `Custom` arm computes
`max_nodes: (1 << node_bits) as u16`: the shifted `1` is an `i32`, so in
a debug build the shift aborts for `node_bits ≥ 32` (modelled as `none`),
and the `as u16` cast keeps the low 16 bits of the result.  The two
preset arms ignore the `epoch` stored in the `Custom` payload and use
the `epoch` argument; the `Custom` arm uses its own payload epoch,
exactly as the Rust `match` does. -/
def IdGenerator.new (preset : ConfigPreset) (epoch : Nat) : Option IdGenerator :=
  match preset with
  | .shortEpochMaxNodes => some (shortEpochMaxNodesGen epoch)
  | .shardedConfig => some (shardedGen epoch)
  | .custom e eb nb sb cid =>
      if nb < 32 then
        some { epoch := e
               epoch_bits := eb
               node_bits := nb
               shard_bits := sb
               max_nodes := (1 <<< nb) % 65536
               config_id := cid }
      else none

/-- Collects the shift amounts used by `generate_id` and `decode_id`:
the masks shift by `epoch_bits`, `node_bits` and `shard_bits`, the node
field by `3 + 10 + shard_bits` and the time field by
`3 + 10 + shard_bits + node_bits`.  In a Rust debug build each `u64`
shift aborts when its amount reaches 64, so these two inequalities are
exactly the condition under which both functions run to completion. -/
def shiftSafe (g : IdGenerator) : Prop :=
  g.epoch_bits < 64 ∧ 13 + g.shard_bits + g.node_bits < 64

instance (g : IdGenerator) : Decidable (shiftSafe g) :=
  inferInstanceAs (Decidable (_ ∧ _))

/-- Rust `IdGenerator::generate_id`, with the wall clock passed in as
`millis`.  `millis.checked_sub(epoch).expect(..)` aborts when
`millis < epoch` (checked first, before any shift); the pure packing
follows the source line by line, with `% 2 ^ 64` marking the two left
shifts whose results can exceed 64 bits. -/
def generate_id (g : IdGenerator) (node_id incrementing_id millis : Nat) :
    Except GenError Nat :=
  if millis < g.epoch then .error .clockBeforeEpoch
  else if shiftSafe g then
    let time_since_epoch := millis - g.epoch
    let config_part := g.config_id &&& 7
    let inc_part := (incrementing_id &&& ((1 <<< 10) - 1)) <<< 3
    let shard_shift := 3 + 10
    let node_shift := shard_shift + g.shard_bits
    let node_part := ((node_id &&& ((1 <<< g.node_bits) - 1)) <<< node_shift) % 2 ^ 64
    let time_shift := node_shift + g.node_bits
    let time_part :=
      ((time_since_epoch &&& ((1 <<< g.epoch_bits) - 1)) <<< time_shift) % 2 ^ 64
    .ok (time_part ||| node_part ||| inc_part ||| config_part)
  else .error .shiftOverflow

/-- Rust `IdGenerator::next_id`.  `counter` is the current value of the
`AtomicU16` sequence counter; `fetch_add(1, SeqCst)` returns the old
value (masked here to the low 10 bits, as in the source) and leaves the
wrapped-around successor in the generator, returned as the second
component. -/
def next_id (g : IdGenerator) (counter node_id millis : Nat) :
    Except GenError Nat × Nat :=
  (generate_id g node_id (counter &&& ((1 <<< 10) - 1)) millis,
   (counter + 1) % 65536)

/-- Rust `IdGenerator::decode_id`.  Mask-and-shift extraction of the
five fields, lowest first; the shard field is cast `as u16` in the
source (`% 2 ^ 16` here) and is 0 when `shard_bits = 0`.  The guard
`shiftSafe` models the debug-mode abort of a shift amount `≥ 64`. -/
def decode_id (g : IdGenerator) (id : Nat) : Option DecodedId :=
  if shiftSafe g then
    let config_id := id &&& 7
    let incrementing_id := (id >>> 3) &&& ((1 <<< 10) - 1)
    let shard_id :=
      if 0 < g.shard_bits then
        ((id >>> (3 + 10)) &&& ((1 <<< g.shard_bits) - 1)) % 2 ^ 16
      else 0
    let node_shift := 3 + 10 + g.shard_bits
    let node_id := (id >>> node_shift) &&& ((1 <<< g.node_bits) - 1)
    let time_shift := node_shift + g.node_bits
    let time := (id >>> time_shift) &&& ((1 <<< g.epoch_bits) - 1)
    some { time := time
           node_id := node_id
           shard_id := shard_id
           incrementing_id := incrementing_id
           config_id := config_id }
  else none

/-- Rust `IdGenerator::derive_sharded_id`.  The two `panic!`s become the
two distinct errors; `1u64 << shard_bits` in the range check aborts for
`shard_bits ≥ 64` (checked after the `shard_bits == 0` test, in source
order).  `!shard_mask` on `u64` is complement, i.e. XOR with all ones. -/
def derive_sharded_id (g : IdGenerator) (original_id shard : Nat) :
    Except GenError Nat :=
  if g.shard_bits = 0 then .error .shardingUnsupported
  else if 64 ≤ g.shard_bits then .error .shiftOverflow
  else if (1 <<< g.shard_bits) ≤ shard then .error .shardOutOfRange
  else
    let shard_shift := 13
    let shard_width := g.shard_bits
    let shard_mask := (((1 <<< shard_width) - 1) <<< shard_shift) % 2 ^ 64
    let base_id := original_id &&& ((2 ^ 64 - 1) ^^^ shard_mask)
    let shard_part := ((shard &&& ((1 <<< shard_width) - 1)) <<< shard_shift) % 2 ^ 64
    .ok (base_id ||| shard_part)

/-- Re-packing of decoded fields with the configuration's bit widths,
written from the specification's description of the layout
(`config_tag | sequence | shard | node | time`, LSB first).  Used to
state the round-trip claim `encode (decode x) = x`. -/
def encode_fields (g : IdGenerator) (d : DecodedId) : Nat :=
  (((d.time &&& ((1 <<< g.epoch_bits) - 1)) <<< (3 + 10 + g.shard_bits + g.node_bits)) % 2 ^ 64) |||
  (((d.node_id &&& ((1 <<< g.node_bits) - 1)) <<< (3 + 10 + g.shard_bits)) % 2 ^ 64) |||
  (((d.shard_id &&& ((1 <<< g.shard_bits) - 1)) <<< 13) % 2 ^ 64) |||
  ((d.incrementing_id &&& ((1 <<< 10) - 1)) <<< 3) |||
  (d.config_id &&& 7)

/-! ### Bridging lemmas: bit operations to arithmetic -/

/-- Masking with `(1 <<< k) - 1` is reduction mod `2 ^ k`. -/
theorem and_shift_mask (x k : Nat) : x &&& ((1 <<< k) - 1) = x % 2 ^ k := by
  rw [Nat.one_shiftLeft, Nat.and_pow_two_sub_one_eq_mod]

/-- Masking with the literal `7` (`0b111`) is reduction mod `2 ^ 3`. -/
theorem and_seven (x : Nat) : x &&& 7 = x % 2 ^ 3 := by
  have h7 : (7 : Nat) = (1 <<< 3) - 1 := by decide
  rw [h7, and_shift_mask]

/-- An OR of a multiple of `2 ^ n` with a value below `2 ^ n` is their sum. -/
theorem lor_eq_add {n : Nat} {u v : Nat} (hu : 2 ^ n ∣ u) (hv : v < 2 ^ n) :
    u ||| v = u + v := by
  obtain ⟨a, rfl⟩ := hu
  exact (Nat.mul_add_lt_is_or hv a).symm

/-- Splitting the 64-bit modulus around an inner shift amount `k`. -/
theorem pow64_split (k : Nat) (hk : k ≤ 64) :
    (2 : Nat) ^ 64 = 2 ^ (64 - k) * 2 ^ k := by
  rw [← pow_add]
  congr 1
  omega

/-- A field value masked to `p` bits and shifted up by `q` stays below
`2 ^ r` whenever `p + q ≤ r`. -/
theorem mod_mul_pow_lt (x : Nat) {p q r : Nat} (h : p + q ≤ r) :
    x % 2 ^ p * 2 ^ q < 2 ^ r := by
  calc x % 2 ^ p * 2 ^ q < 2 ^ p * 2 ^ q :=
        Nat.mul_lt_mul_of_pos_right (Nat.mod_lt _ (Nat.two_pow_pos _)) (Nat.two_pow_pos _)
    _ = 2 ^ (p + q) := (pow_add 2 p q).symm
    _ ≤ 2 ^ r := Nat.pow_le_pow_right (by omega) h

/-- The OR chain of the four packed fields (time at `13 + sb + nb`, node
at `13 + sb`, sequence at `3`, tag at `0`) is a plain sum, because the
fields occupy disjoint bit windows. -/
theorem pack_or_eq_add (sb nb A B C D : Nat)
    (hB : B < 2 ^ nb) (hC : C < 2 ^ 10) (hD : D < 2 ^ 3) :
    A * 2 ^ (13 + sb + nb) ||| B * 2 ^ (13 + sb) ||| C * 2 ^ 3 ||| D
      = A * 2 ^ (13 + sb + nb) + B * 2 ^ (13 + sb) + C * 2 ^ 3 + D := by
  have hBlt : B * 2 ^ (13 + sb) < 2 ^ (13 + sb + nb) := by
    calc B * 2 ^ (13 + sb) < 2 ^ nb * 2 ^ (13 + sb) :=
          Nat.mul_lt_mul_of_pos_right hB (Nat.two_pow_pos _)
      _ = 2 ^ (13 + sb + nb) := by rw [← pow_add]; congr 1; omega
  have hClt : C * 2 ^ 3 < 2 ^ 13 := by
    calc C * 2 ^ 3 < 2 ^ 10 * 2 ^ 3 :=
          Nat.mul_lt_mul_of_pos_right hC (Nat.two_pow_pos _)
      _ = 2 ^ 13 := by norm_num
  have h1 : A * 2 ^ (13 + sb + nb) ||| B * 2 ^ (13 + sb)
      = A * 2 ^ (13 + sb + nb) + B * 2 ^ (13 + sb) :=
    lor_eq_add (dvd_mul_left _ _) hBlt
  have h2 : A * 2 ^ (13 + sb + nb) + B * 2 ^ (13 + sb) ||| C * 2 ^ 3
      = A * 2 ^ (13 + sb + nb) + B * 2 ^ (13 + sb) + C * 2 ^ 3 := by
    apply lor_eq_add (n := 13)
    · exact Nat.dvd_add (Dvd.dvd.mul_left (pow_dvd_pow 2 (by omega)) _)
        (Dvd.dvd.mul_left (pow_dvd_pow 2 (by omega)) _)
    · exact hClt
  have h3 : A * 2 ^ (13 + sb + nb) + B * 2 ^ (13 + sb) + C * 2 ^ 3 ||| D
      = A * 2 ^ (13 + sb + nb) + B * 2 ^ (13 + sb) + C * 2 ^ 3 + D := by
    apply lor_eq_add (n := 3)
    · exact Nat.dvd_add (Nat.dvd_add
        (Dvd.dvd.mul_left (pow_dvd_pow 2 (by omega)) _)
        (Dvd.dvd.mul_left (pow_dvd_pow 2 (by omega)) _))
        (Dvd.dvd.mul_left (pow_dvd_pow 2 (by omega)) _)
    · exact hD
  rw [h1, h2, h3]

/-- Arithmetic form of `generate_id` on the non-panicking path: the
identifier is the sum of the four disjoint fields, the time field
additionally truncated to the bits that fit below bit 64. -/
theorem generate_id_eq (g : IdGenerator) (node inc millis : Nat)
    (hs : shiftSafe g) (h : g.epoch ≤ millis) :
    generate_id g node inc millis = .ok
      ((millis - g.epoch) % 2 ^ g.epoch_bits % 2 ^ (64 - (13 + g.shard_bits + g.node_bits))
          * 2 ^ (13 + g.shard_bits + g.node_bits)
        + node % 2 ^ g.node_bits * 2 ^ (13 + g.shard_bits)
        + inc % 2 ^ 10 * 2 ^ 3
        + g.config_id % 2 ^ 3) := by
  obtain ⟨he, hn⟩ := hs
  unfold generate_id
  rw [if_neg (by omega), if_pos ⟨he, hn⟩]
  have h13 : (3 + 10 : Nat) = 13 := rfl
  simp only [and_seven, and_shift_mask]
  simp only [Nat.shiftLeft_eq, h13]
  congr 1
  -- the node part fits below 2 ^ 64, so its reduction is trivial
  rw [Nat.mod_eq_of_lt (mod_mul_pow_lt node (by omega))]
  -- the time part is truncated: split 2 ^ 64 around the time shift
  rw [pow64_split (13 + g.shard_bits + g.node_bits) (by omega), Nat.mul_mod_mul_right]
  exact pack_or_eq_add _ _ _ _ _ _
    (Nat.mod_lt _ (Nat.two_pow_pos _))
    (Nat.mod_lt _ (Nat.two_pow_pos _))
    (Nat.mod_lt _ (Nat.two_pow_pos _))

/-- Arithmetic form of `decode_id` under the shift guard: plain
divide-and-mod field extraction. -/
theorem decode_id_eq (g : IdGenerator) (id : Nat) (hs : shiftSafe g) :
    decode_id g id = some
      { time := id / 2 ^ (13 + g.shard_bits + g.node_bits) % 2 ^ g.epoch_bits
        node_id := id / 2 ^ (13 + g.shard_bits) % 2 ^ g.node_bits
        shard_id :=
          if 0 < g.shard_bits then id / 2 ^ 13 % 2 ^ g.shard_bits % 2 ^ 16 else 0
        incrementing_id := id / 2 ^ 3 % 2 ^ 10
        config_id := id % 2 ^ 3 } := by
  unfold decode_id
  rw [if_pos hs]
  have h13 : (3 + 10 : Nat) = 13 := rfl
  simp only [and_seven, and_shift_mask]
  simp only [Nat.shiftRight_eq_div_pow, h13]

/-- ANDing a 64-bit value with the complement of the shard-window mask
(bits `13 .. 13 + w`) keeps exactly the bits above and below the window:
the result is `(value with window and low bits dropped) + (low 13 bits)`. -/
theorem and_not_mask (orig w : Nat) (ho : orig < 2 ^ 64) (hw : 13 + w ≤ 64) :
    orig &&& ((2 ^ 64 - 1) ^^^ (((2 ^ w - 1) <<< 13) % 2 ^ 64)) =
      orig / 2 ^ (13 + w) * 2 ^ (13 + w) + orig % 2 ^ 13 := by
  have hmask : ((2 ^ w - 1) <<< 13) % 2 ^ 64 = (2 ^ w - 1) <<< 13 := by
    apply Nat.mod_eq_of_lt
    rw [Nat.shiftLeft_eq]
    calc (2 ^ w - 1) * 2 ^ 13 < 2 ^ w * 2 ^ 13 :=
          Nat.mul_lt_mul_of_pos_right
            (Nat.sub_lt (Nat.two_pow_pos _) Nat.one_pos) (Nat.two_pow_pos _)
      _ = 2 ^ (w + 13) := (pow_add 2 w 13).symm
      _ ≤ 2 ^ 64 := Nat.pow_le_pow_right (by omega) (by omega)
  rw [hmask]
  have hsum : orig / 2 ^ (13 + w) * 2 ^ (13 + w) + orig % 2 ^ 13
      = ((orig >>> (13 + w)) <<< (13 + w)) ||| orig % 2 ^ 13 := by
    rw [Nat.shiftLeft_eq, Nat.shiftRight_eq_div_pow]
    exact (lor_eq_add (dvd_mul_left _ _)
      (lt_of_lt_of_le (Nat.mod_lt _ (Nat.two_pow_pos _))
        (Nat.pow_le_pow_right (by omega) (by omega)))).symm
  rw [hsum]
  apply Nat.eq_of_testBit_eq
  intro i
  simp only [Nat.testBit_and, Nat.testBit_xor, Nat.testBit_or, Nat.testBit_shiftLeft,
    Nat.testBit_shiftRight, Nat.testBit_mod_two_pow, Nat.testBit_two_pow_sub_one, ge_iff_le]
  rcases Nat.lt_or_ge i 13 with h1 | h1
  · have e1 : ¬ (13 ≤ i) := by omega
    have e2 : i < 64 := by omega
    have e5 : ¬ (13 + w ≤ i) := by omega
    simp [e1, e2, h1, e5]
  · rcases Nat.lt_or_ge i (13 + w) with h2 | h2
    · have e1 : i - 13 < w := by omega
      have e2 : i < 64 := by omega
      have e3 : ¬ i < 13 := by omega
      have e4 : ¬ (13 + w ≤ i) := by omega
      simp [h1, e1, e2, e3, e4]
    · rcases Nat.lt_or_ge i 64 with h3 | h3
      · have e1 : ¬ (i - 13 < w) := by omega
        have e2 : ¬ i < 13 := by omega
        have e3 : 13 + w + (i - (13 + w)) = i := by omega
        simp [h1, h2, h3, e1, e2, e3]
      · have e0 : orig.testBit i = false :=
          Nat.testBit_lt_two_pow
            (lt_of_lt_of_le ho (Nat.pow_le_pow_right (by omega) h3))
        have e3 : 13 + w + (i - (13 + w)) = i := by omega
        have e2 : ¬ i < 13 := by omega
        simp [e0, e2, e3]

/-- Arithmetic form of `derive_sharded_id` on the success path: the bits
above the shard window are kept, the in-range `shard` is written into
bits `13 .. 13 + shard_bits`, and the low 13 bits are kept. -/
theorem derive_sharded_id_eq (g : IdGenerator) (orig shard : Nat)
    (h0 : 0 < g.shard_bits) (hw : 13 + g.shard_bits ≤ 64)
    (ho : orig < 2 ^ 64) (hsh : shard < 2 ^ g.shard_bits) :
    derive_sharded_id g orig shard = .ok
      (orig / 2 ^ (13 + g.shard_bits) * 2 ^ (13 + g.shard_bits)
        + shard * 2 ^ 13 + orig % 2 ^ 13) := by
  unfold derive_sharded_id
  have h3 : ¬ ((1 <<< g.shard_bits) ≤ shard) := by
    rw [Nat.one_shiftLeft]
    exact Nat.not_le.mpr hsh
  rw [if_neg (by omega), if_neg (by omega), if_neg h3]
  have hsp : ((shard &&& ((1 <<< g.shard_bits) - 1)) <<< 13) % 2 ^ 64 = shard * 2 ^ 13 := by
    rw [and_shift_mask, Nat.mod_eq_of_lt hsh, Nat.shiftLeft_eq]
    apply Nat.mod_eq_of_lt
    calc shard * 2 ^ 13 < 2 ^ g.shard_bits * 2 ^ 13 :=
          Nat.mul_lt_mul_of_pos_right hsh (Nat.two_pow_pos _)
      _ = 2 ^ (g.shard_bits + 13) := (pow_add 2 _ 13).symm
      _ ≤ 2 ^ 64 := Nat.pow_le_pow_right (by omega) (by omega)
  have hbase : orig &&& ((2 ^ 64 - 1) ^^^ (((1 <<< g.shard_bits) - 1) <<< 13) % 2 ^ 64)
      = orig / 2 ^ (13 + g.shard_bits) * 2 ^ (13 + g.shard_bits) + orig % 2 ^ 13 := by
    rw [Nat.one_shiftLeft]
    exact and_not_mask orig g.shard_bits ho hw
  simp only [hsp, hbase]
  congr 1
  have hlo : orig % 2 ^ 13 < 2 ^ (13 + g.shard_bits) :=
    lt_of_lt_of_le (Nat.mod_lt _ (Nat.two_pow_pos _))
      (Nat.pow_le_pow_right (by omega) (by omega))
  rw [← lor_eq_add (dvd_mul_left _ _) hlo, Nat.lor_assoc,
    Nat.lor_comm (orig % 2 ^ 13) (shard * 2 ^ 13),
    lor_eq_add (u := shard * 2 ^ 13) (dvd_mul_left _ _) (Nat.mod_lt _ (Nat.two_pow_pos _)),
    lor_eq_add (n := 13 + g.shard_bits) (dvd_mul_left _ _), Nat.add_assoc]
  calc shard * 2 ^ 13 + orig % 2 ^ 13
      < shard * 2 ^ 13 + 2 ^ 13 := by
        exact Nat.add_lt_add_left (Nat.mod_lt _ (Nat.two_pow_pos _)) _
    _ = (shard + 1) * 2 ^ 13 := by ring
    _ ≤ 2 ^ g.shard_bits * 2 ^ 13 :=
        Nat.mul_le_mul_right _ (Nat.succ_le_of_lt hsh)
    _ = 2 ^ (13 + g.shard_bits) := by rw [← pow_add]; congr 1; omega

/-- Extracting a `w`-bit field at shift `s` from a value decomposed
around that field. -/
theorem field_extract (s w Mhi M r x : Nat)
    (hx : x = (Mhi * 2 ^ w + M) * 2 ^ s + r) (hr : r < 2 ^ s) (hM : M < 2 ^ w) :
    x / 2 ^ s % 2 ^ w = M := by
  subst hx
  rw [Nat.mul_comm (Mhi * 2 ^ w + M) (2 ^ s), Nat.mul_add_div (Nat.two_pow_pos _),
    Nat.div_eq_of_lt hr, Nat.add_zero, Nat.mul_comm Mhi (2 ^ w), Nat.mul_add_mod,
    Nat.mod_eq_of_lt hM]

/-- The low `w` bits of a value decomposed around bit `w`. -/
theorem field_extract_mod (w Mhi M x : Nat)
    (hx : x = Mhi * 2 ^ w + M) (hM : M < 2 ^ w) : x % 2 ^ w = M := by
  subst hx
  rw [Nat.mul_comm Mhi (2 ^ w), Nat.mul_add_mod, Nat.mod_eq_of_lt hM]

/-- Unpacking all five fields of a packed identifier
`A·2^(13+sb+nb) + B·2^(13+sb) + C·2^3 + D` (time `A`, node `B`, empty
shard window, sequence `C`, tag `D`), together with the 64-bit bound. -/
theorem unpack (sb nb eb A B C D x : Nat)
    (hx : x = A * 2 ^ (13 + sb + nb) + B * 2 ^ (13 + sb) + C * 2 ^ 3 + D)
    (hA : A < 2 ^ eb) (hA64 : A < 2 ^ (64 - (13 + sb + nb)))
    (hn : 13 + sb + nb < 64)
    (hB : B < 2 ^ nb) (hC : C < 2 ^ 10) (hD : D < 2 ^ 3) :
    x / 2 ^ (13 + sb + nb) % 2 ^ eb = A ∧
    x / 2 ^ (13 + sb) % 2 ^ nb = B ∧
    x / 2 ^ 13 % 2 ^ sb = 0 ∧
    x / 2 ^ 3 % 2 ^ 10 = C ∧
    x % 2 ^ 3 = D ∧
    x < 2 ^ 64 := by
  have p1 : (2 : Nat) ^ (13 + sb + nb) = 2 ^ nb * 2 ^ (13 + sb) := by
    rw [← pow_add]; congr 1; omega
  have p2 : (2 : Nat) ^ (13 + sb) = 2 ^ sb * 2 ^ 13 := by
    rw [← pow_add]; congr 1; omega
  have p3 : (2 : Nat) ^ 13 = 2 ^ 10 * 2 ^ 3 := by norm_num
  have p4 : (2 : Nat) ^ (sb + nb) = 2 ^ nb * 2 ^ sb := by
    rw [← pow_add]; congr 1; omega
  have p5 : (2 : Nat) ^ (10 + sb + nb) = 2 ^ nb * 2 ^ sb * 2 ^ 10 := by
    rw [← pow_add, ← pow_add]; congr 1; omega
  have p6 : (2 : Nat) ^ (10 + sb) = 2 ^ sb * 2 ^ 10 := by
    rw [← pow_add]; congr 1; omega
  have hCD : C * 2 ^ 3 + D < 2 ^ 13 := by
    calc C * 2 ^ 3 + D < C * 2 ^ 3 + 2 ^ 3 := Nat.add_lt_add_left hD _
      _ = (C + 1) * 2 ^ 3 := by ring
      _ ≤ 2 ^ 10 * 2 ^ 3 := Nat.mul_le_mul_right _ (Nat.succ_le_of_lt hC)
      _ = 2 ^ 13 := by norm_num
  have hCDns : C * 2 ^ 3 + D < 2 ^ (13 + sb) :=
    lt_of_lt_of_le hCD (Nat.pow_le_pow_right (by omega) (by omega))
  have hlow : B * 2 ^ (13 + sb) + (C * 2 ^ 3 + D) < 2 ^ (13 + sb + nb) := by
    calc B * 2 ^ (13 + sb) + (C * 2 ^ 3 + D)
        < B * 2 ^ (13 + sb) + 2 ^ (13 + sb) := Nat.add_lt_add_left hCDns _
      _ = (B + 1) * 2 ^ (13 + sb) := by ring
      _ ≤ 2 ^ nb * 2 ^ (13 + sb) := Nat.mul_le_mul_right _ (Nat.succ_le_of_lt hB)
      _ = 2 ^ (13 + sb + nb) := p1.symm
  refine ⟨?_, ?_, ?_, ?_, ?_, ?_⟩
  · exact field_extract (13 + sb + nb) eb 0 A (B * 2 ^ (13 + sb) + (C * 2 ^ 3 + D)) x
      (by rw [hx]; ring) hlow hA
  · exact field_extract (13 + sb) nb A B (C * 2 ^ 3 + D) x
      (by rw [hx, p1]; ring) hCDns hB
  · exact field_extract 13 sb (A * 2 ^ nb + B) 0 (C * 2 ^ 3 + D) x
      (by rw [hx, p1, p2]; ring) hCD (Nat.two_pow_pos _)
  · exact field_extract 3 10 (A * 2 ^ (sb + nb) + B * 2 ^ sb) C D x
      (by rw [hx, p1, p2, p3, p4]; ring) hD hC
  · exact field_extract_mod 3 (A * 2 ^ (10 + sb + nb) + B * 2 ^ (10 + sb) + C) D x
      (by rw [hx, p1, p2, p3, p5, p6]; ring) hD
  · calc x = A * 2 ^ (13 + sb + nb) + (B * 2 ^ (13 + sb) + (C * 2 ^ 3 + D)) := by
          rw [hx]; ring
      _ < A * 2 ^ (13 + sb + nb) + 2 ^ (13 + sb + nb) := Nat.add_lt_add_left hlow _
      _ = (A + 1) * 2 ^ (13 + sb + nb) := by ring
      _ ≤ 2 ^ (64 - (13 + sb + nb)) * 2 ^ (13 + sb + nb) :=
          Nat.mul_le_mul_right _ (Nat.succ_le_of_lt hA64)
      _ = 2 ^ 64 := by rw [← pow_add]; congr 1; omega

/-- A value below `2 ^ p`, shifted up by `q` with `p + q ≤ 64`, stays
below `2 ^ 64`. -/
theorem mul_pow_lt64 {B p q : Nat} (hB : B < 2 ^ p) (h : p + q ≤ 64) :
    B * 2 ^ q < 2 ^ 64 := by
  calc B * 2 ^ q < 2 ^ p * 2 ^ q := Nat.mul_lt_mul_of_pos_right hB (Nat.two_pow_pos _)
    _ = 2 ^ (p + q) := (pow_add 2 p q).symm
    _ ≤ 2 ^ 64 := Nat.pow_le_pow_right (by omega) h

/-- Evaluation of `encode_fields` on in-range fields with an empty shard
window: it is the packed sum. -/
theorem encode_fields_eval (g : IdGenerator) (hsf : shiftSafe g) (A B C D : Nat)
    (hA : A < 2 ^ g.epoch_bits) (hA64 : A < 2 ^ (64 - (13 + g.shard_bits + g.node_bits)))
    (hB : B < 2 ^ g.node_bits) (hC : C < 2 ^ 10) (hD : D < 2 ^ 3) :
    encode_fields g
        { time := A, node_id := B, shard_id := 0, incrementing_id := C, config_id := D }
      = A * 2 ^ (13 + g.shard_bits + g.node_bits) + B * 2 ^ (13 + g.shard_bits)
        + C * 2 ^ 3 + D := by
  obtain ⟨he, hn⟩ := hsf
  unfold encode_fields
  simp only [and_seven, and_shift_mask]
  simp only [Nat.shiftLeft_eq, show (3 + 10 : Nat) = 13 from rfl]
  rw [Nat.mod_eq_of_lt hA, Nat.mod_eq_of_lt hB, Nat.mod_eq_of_lt hC, Nat.mod_eq_of_lt hD]
  simp only [Nat.zero_mod, Nat.zero_mul, Nat.or_zero]
  rw [Nat.mod_eq_of_lt (mul_pow_lt64 hA64 (by omega)),
    Nat.mod_eq_of_lt (mul_pow_lt64 hB (by omega))]
  exact pack_or_eq_add _ _ A B C D hB hC hD

/-- Decoding a packed identifier with an empty shard window and
re-packing the decoded fields gives it back. -/
theorem roundtrip_aux (g : IdGenerator) (hsf : shiftSafe g) (A B C D x : Nat)
    (hx : x = A * 2 ^ (13 + g.shard_bits + g.node_bits) + B * 2 ^ (13 + g.shard_bits)
        + C * 2 ^ 3 + D)
    (hA : A < 2 ^ g.epoch_bits) (hA64 : A < 2 ^ (64 - (13 + g.shard_bits + g.node_bits)))
    (hB : B < 2 ^ g.node_bits) (hC : C < 2 ^ 10) (hD : D < 2 ^ 3) :
    (decode_id g x).map (encode_fields g) = some x := by
  obtain ⟨ht, hnode, hshard, hseq, hcfg, _⟩ :=
    unpack g.shard_bits g.node_bits g.epoch_bits A B C D x hx hA hA64 hsf.2 hB hC hD
  rw [decode_id_eq g x hsf]
  simp only [Option.map_some']
  rw [ht, hnode, hshard, hseq, hcfg]
  simp only [Nat.zero_mod, ite_self]
  rw [encode_fields_eval g hsf A B C D hA hA64 hB hC hD, ← hx]

/-- C1: for every 64-bit identifier produced by this codec's own
`generate_id`/`next_id` under a fixed configuration, decoding it with
`decode_id` and re-packing the decoded fields with the configuration's
bit widths yields exactly the identifier back:
`encode_fields (decode_id x) = x`. -/
theorem decode_encode_roundtrip (g : IdGenerator) (node inc millis x : Nat)
    (hgen : generate_id g node inc millis = .ok x) :
    (decode_id g x).map (encode_fields g) = some x := by
  rcases Nat.lt_or_ge millis g.epoch with hm | hm
  · unfold generate_id at hgen
    rw [if_pos hm] at hgen
    exact Except.noConfusion hgen
  have hsf : shiftSafe g := by
    by_contra hc
    unfold generate_id at hgen
    rw [if_neg (Nat.not_lt.mpr hm), if_neg hc] at hgen
    exact Except.noConfusion hgen
  rw [generate_id_eq g node inc millis hsf hm] at hgen
  injection hgen with hgen
  refine roundtrip_aux g hsf _ _ _ _ x hgen.symm ?_ ?_ ?_ ?_ ?_
  · exact lt_of_le_of_lt (Nat.mod_le _ _) (Nat.mod_lt _ (Nat.two_pow_pos _))
  · exact Nat.mod_lt _ (Nat.two_pow_pos _)
  · exact Nat.mod_lt _ (Nat.two_pow_pos _)
  · exact Nat.mod_lt _ (Nat.two_pow_pos _)
  · exact Nat.mod_lt _ (Nat.two_pow_pos _)

/-- Witness for the round-trip theorem: the identifier generated by the
short-epoch preset (epoch 0) for node 1, sequence 5, at millisecond 123
is `123·2^27 + 1·2^13 + 5·2^3 + 3 = 16508788779`, and it decodes and
re-packs to itself. -/
theorem decode_encode_roundtrip_witness :
    (decode_id (shortEpochMaxNodesGen 0) 16508788779).map
        (encode_fields (shortEpochMaxNodesGen 0)) = some 16508788779 :=
  decode_encode_roundtrip (shortEpochMaxNodesGen 0) 1 5 123 16508788779 rfl

/-- C2: under any configuration whose shift amounts are legal and whose
field widths fit the spec's 64-bit budget, a `next_id` call at
`millis ≥ epoch` returns exactly
`((now − epoch) masked to epoch_bits) <<< (node_bits + shard_bits + 13)
 ||| (node masked to node_bits) <<< (shard_bits + 13)
 ||| (sequence masked to 10 bits) <<< 3 ||| (config_tag masked to 3 bits)`,
and the shard bit window (offset 13, width `shard_bits`) of the returned
identifier is zero. -/
theorem next_id_packs (g : IdGenerator) (counter node millis : Nat)
    (hsf : shiftSafe g)
    (hinv : g.epoch_bits + g.node_bits + g.shard_bits + 13 ≤ 64)
    (h : g.epoch ≤ millis) :
    (next_id g counter node millis).1 = .ok
      ((((millis - g.epoch) % 2 ^ g.epoch_bits) <<< (g.node_bits + g.shard_bits + 13)) |||
       ((node % 2 ^ g.node_bits) <<< (g.shard_bits + 13)) |||
       ((counter % 2 ^ 10) <<< 3) ||| (g.config_id % 2 ^ 3)) ∧
    (∀ x, (next_id g counter node millis).1 = .ok x →
      (x >>> 13) % 2 ^ g.shard_bits = 0) := by
  have e1 : (millis - g.epoch) % 2 ^ g.epoch_bits
      % 2 ^ (64 - (13 + g.shard_bits + g.node_bits))
      = (millis - g.epoch) % 2 ^ g.epoch_bits :=
    Nat.mod_eq_of_lt (lt_of_lt_of_le (Nat.mod_lt _ (Nat.two_pow_pos _))
      (Nat.pow_le_pow_right (by omega) (by omega)))
  have e2 : (counter % 2 ^ 10) % 2 ^ 10 = counter % 2 ^ 10 :=
    Nat.mod_eq_of_lt (Nat.mod_lt _ (by norm_num))
  constructor
  · unfold next_id
    simp only [and_shift_mask]
    rw [generate_id_eq g node (counter % 2 ^ 10) millis hsf h]
    congr 1
    rw [Nat.shiftLeft_eq, Nat.shiftLeft_eq, Nat.shiftLeft_eq,
      show g.node_bits + g.shard_bits + 13 = 13 + g.shard_bits + g.node_bits by omega,
      show g.shard_bits + 13 = 13 + g.shard_bits by omega,
      pack_or_eq_add g.shard_bits g.node_bits _ _ _ _
        (Nat.mod_lt _ (Nat.two_pow_pos _)) (Nat.mod_lt _ (by norm_num))
        (Nat.mod_lt _ (by norm_num)),
      e1, e2]
  · intro x hx
    unfold next_id at hx
    simp only [and_shift_mask] at hx
    rw [generate_id_eq g node (counter % 2 ^ 10) millis hsf h] at hx
    injection hx with hx
    obtain ⟨_, _, hshard, _, _, _⟩ :=
      unpack g.shard_bits g.node_bits g.epoch_bits _ _ _ _ x hx.symm
        (lt_of_le_of_lt (Nat.mod_le _ _) (Nat.mod_lt _ (Nat.two_pow_pos _)))
        (Nat.mod_lt _ (Nat.two_pow_pos _)) hsf.2
        (Nat.mod_lt _ (Nat.two_pow_pos _)) (Nat.mod_lt _ (by norm_num))
        (Nat.mod_lt _ (by norm_num))
    rw [Nat.shiftRight_eq_div_pow]
    exact hshard

/-- Witness for the packing theorem: the short-epoch preset with epoch
100, sequence counter 5, node 1 at millisecond 223. -/
theorem next_id_packs_witness :
    (next_id (shortEpochMaxNodesGen 100) 5 1 223).1 = .ok
      ((((223 - 100) % 2 ^ 37) <<< (14 + 0 + 13)) |||
       ((1 % 2 ^ 14) <<< (0 + 13)) ||| ((5 % 2 ^ 10) <<< 3) ||| (3 % 2 ^ 3)) :=
  (next_id_packs (shortEpochMaxNodesGen 100) 5 1 223
    (by decide) (by decide) (by decide)).1

/-- C4: `derive_sharded_id` fails with `shardingUnsupported` exactly
when the configuration has `shard_bits = 0`, fails with
`shardOutOfRange` exactly when `shard_bits > 0` and the requested shard
does not fit in `shard_bits` bits, these two failures are distinct, and
for `shard_bits > 0` with an in-range shard it succeeds (stated for
configurations whose shard width keeps the `1 << shard_bits` range check
itself legal, `shard_bits < 64`). -/
theorem derive_sharded_id_errors (g : IdGenerator) (original shard : Nat)
    (hs64 : g.shard_bits < 64) :
    (derive_sharded_id g original shard = .error .shardingUnsupported ↔
      g.shard_bits = 0) ∧
    (derive_sharded_id g original shard = .error .shardOutOfRange ↔
      0 < g.shard_bits ∧ 2 ^ g.shard_bits ≤ shard) ∧
    (GenError.shardingUnsupported ≠ GenError.shardOutOfRange) ∧
    ((0 < g.shard_bits ∧ shard < 2 ^ g.shard_bits) →
      ∃ y, derive_sharded_id g original shard = .ok y) := by
  unfold derive_sharded_id
  split_ifs with h0 h64 hr
  · refine ⟨by simp [h0], ?_, by decide, ?_⟩
    · constructor
      · intro hc
        injection hc with hc
        exact absurd hc (by decide)
      · rintro ⟨hc, _⟩
        omega
    · rintro ⟨hc, _⟩
      omega
  · omega
  · rw [Nat.one_shiftLeft] at hr
    refine ⟨?_, ?_, by decide, ?_⟩
    · constructor
      · intro hc
        injection hc with hc
        exact absurd hc (by decide)
      · intro hc
        exact absurd hc h0
    · exact ⟨fun _ => ⟨by omega, hr⟩, fun _ => rfl⟩
    · rintro ⟨_, hlt⟩
      exact absurd hlt (Nat.not_lt.mpr hr)
  · rw [Nat.one_shiftLeft] at hr
    refine ⟨?_, ?_, by decide, ?_⟩
    · constructor
      · intro hc
        exact hc.elim
      · intro hc
        exact absurd hc h0
    · constructor
      · intro hc
        exact hc.elim
      · rintro ⟨_, hc⟩
        exact absurd hc hr
    · exact fun _ => ⟨_, rfl⟩

/-- Witness for the error taxonomy: under the sharded preset
(`shard_bits = 5`), shard 50 is out of range. -/
theorem derive_sharded_id_errors_witness :
    derive_sharded_id (shardedGen 0) 0 50 = .error .shardOutOfRange :=
  ((derive_sharded_id_errors (shardedGen 0) 0 50 (by decide)).2.1).mpr
    ⟨by decide, by decide⟩

/-- C5: for every configuration, when the wall clock is strictly before
the epoch `next_id` aborts with the clock-before-epoch error (it never
clamps or wraps), and when the wall clock is at or after the epoch that
error cannot occur. -/
theorem next_id_clock_before_epoch (g : IdGenerator) (counter node millis : Nat) :
    (millis < g.epoch →
      (next_id g counter node millis).1 = .error .clockBeforeEpoch) ∧
    (g.epoch ≤ millis →
      (next_id g counter node millis).1 ≠ .error .clockBeforeEpoch) := by
  constructor
  · intro hm
    unfold next_id generate_id
    rw [if_pos hm]
  · intro hm
    unfold next_id generate_id
    rw [if_neg (Nat.not_lt.mpr hm)]
    split_ifs with hsf
    · intro hc
      exact Except.noConfusion hc
    · intro hc
      injection hc with hc
      exact absurd hc (by decide)

/-- Witness for the clock error: the short-epoch preset with epoch 100
queried at millisecond 5 aborts with `clockBeforeEpoch`. -/
theorem next_id_clock_before_epoch_witness :
    (next_id (shortEpochMaxNodesGen 100) 0 1 5).1 = .error .clockBeforeEpoch :=
  (next_id_clock_before_epoch (shortEpochMaxNodesGen 100) 0 1 5).1 (by decide)

/-- Both presets satisfy the shift-amount guard. -/
theorem shortEpoch_shiftSafe (e : Nat) : shiftSafe (shortEpochMaxNodesGen e) :=
  ⟨show (37 : Nat) < 64 by norm_num, show (13 + 0 + 14 : Nat) < 64 by norm_num⟩

/-- The sharded preset satisfies the shift-amount guard. -/
theorem sharded_shiftSafe (e : Nat) : shiftSafe (shardedGen e) :=
  ⟨show (32 : Nat) < 64 by norm_num, show (13 + 5 + 14 : Nat) < 64 by norm_num⟩

/-- Decoding an identifier freshly minted by `next_id` returns the node
that was passed in (when it fits `node_bits`) and the configuration's
tag masked to 3 bits. -/
theorem decode_node_tag_aux (g : IdGenerator) (hsf : shiftSafe g)
    (counter node millis : Nat) (hn : node < 2 ^ g.node_bits) (h : g.epoch ≤ millis) :
    ∃ x d, (next_id g counter node millis).1 = .ok x ∧ decode_id g x = some d ∧
      d.node_id = node ∧ d.config_id = g.config_id % 2 ^ 3 := by
  obtain ⟨ht, hnode, hsh, hseq, hcfg, _⟩ :=
    unpack g.shard_bits g.node_bits g.epoch_bits
      ((millis - g.epoch) % 2 ^ g.epoch_bits
        % 2 ^ (64 - (13 + g.shard_bits + g.node_bits)))
      (node % 2 ^ g.node_bits) ((counter % 2 ^ 10) % 2 ^ 10) (g.config_id % 2 ^ 3)
      _ rfl
      (lt_of_le_of_lt (Nat.mod_le _ _) (Nat.mod_lt _ (Nat.two_pow_pos _)))
      (Nat.mod_lt _ (Nat.two_pow_pos _)) hsf.2
      (Nat.mod_lt _ (Nat.two_pow_pos _)) (Nat.mod_lt _ (by norm_num))
      (Nat.mod_lt _ (by norm_num))
  refine ⟨(millis - g.epoch) % 2 ^ g.epoch_bits
      % 2 ^ (64 - (13 + g.shard_bits + g.node_bits))
      * 2 ^ (13 + g.shard_bits + g.node_bits)
      + node % 2 ^ g.node_bits * 2 ^ (13 + g.shard_bits)
      + (counter % 2 ^ 10) % 2 ^ 10 * 2 ^ 3
      + g.config_id % 2 ^ 3, _, ?_, decode_id_eq g _ hsf, ?_, ?_⟩
  · unfold next_id
    simp only [and_shift_mask]
    exact generate_id_eq g node (counter % 2 ^ 10) millis hsf h
  · exact hnode.trans (Nat.mod_eq_of_lt hn)
  · exact hcfg

/-- C6: for both named presets and every node representable in the
preset's 14 node bits, decoding the identifier minted by `next_id`
returns that node and the preset's configuration tag (3 for
short-epoch-max-nodes, 1 for sharded). -/
theorem preset_decode_node_and_tag (e counter node millis : Nat)
    (hn : node < 16384) (h : e ≤ millis) :
    (∃ x d, (next_id (shortEpochMaxNodesGen e) counter node millis).1 = .ok x ∧
      decode_id (shortEpochMaxNodesGen e) x = some d ∧
      d.node_id = node ∧ d.config_id = 3) ∧
    (∃ x d, (next_id (shardedGen e) counter node millis).1 = .ok x ∧
      decode_id (shardedGen e) x = some d ∧
      d.node_id = node ∧ d.config_id = 1) := by
  constructor
  · obtain ⟨x, d, h1, h2, h3, h4⟩ :=
      decode_node_tag_aux (shortEpochMaxNodesGen e) (shortEpoch_shiftSafe e) counter node millis hn h
    exact ⟨x, d, h1, h2, h3, h4⟩
  · obtain ⟨x, d, h1, h2, h3, h4⟩ :=
      decode_node_tag_aux (shardedGen e) (sharded_shiftSafe e) counter node millis hn h
    exact ⟨x, d, h1, h2, h3, h4⟩

/-- Witness for the preset decode theorem: epoch 0, counter 0, node 1,
millisecond 7. -/
theorem preset_decode_node_and_tag_witness :
    (∃ x d, (next_id (shortEpochMaxNodesGen 0) 0 1 7).1 = .ok x ∧
      decode_id (shortEpochMaxNodesGen 0) x = some d ∧
      d.node_id = 1 ∧ d.config_id = 3) ∧
    (∃ x d, (next_id (shardedGen 0) 0 1 7).1 = .ok x ∧
      decode_id (shardedGen 0) x = some d ∧
      d.node_id = 1 ∧ d.config_id = 1) :=
  preset_decode_node_and_tag 0 0 1 7 (by decide) (by decide)

/-- C8 counterexample: `custom` with `node_bits = 16` stores
`max_nodes = 0`, not `2 ^ 16 = 65536`, because `(1 << 16) as u16`
truncates to the low 16 bits. -/
theorem custom_max_nodes_counterexample :
    (IdGenerator.new (.custom 0 1 16 0 0) 0).map IdGenerator.max_nodes = some 0 ∧
    (0 : Nat) ≠ 2 ^ 16 := ⟨rfl, by decide⟩

/-- C8 amended: for `node_bits < 32` (a wider shift aborts the `i32`
shift in a debug build), `custom` derives
`max_nodes = 2 ^ node_bits mod 2 ^ 16`, the `as u16` truncation of
`1 << node_bits`; this equals `2 ^ node_bits` exactly when
`node_bits < 16`. -/
theorem custom_max_nodes (e2 e eb nb sb cid : Nat) (h : nb < 32) :
    (IdGenerator.new (.custom e eb nb sb cid) e2).map IdGenerator.max_nodes
      = some (2 ^ nb % 65536) := by
  simp only [IdGenerator.new]
  rw [if_pos h]
  simp [Nat.one_shiftLeft]

/-- Witness for the amended `max_nodes` theorem at `node_bits = 16`. -/
theorem custom_max_nodes_witness :
    (IdGenerator.new (.custom 0 1 16 0 0) 0).map IdGenerator.max_nodes
      = some (2 ^ 16 % 65536) :=
  custom_max_nodes 0 0 1 16 0 0 (by decide)

/-- C9 counterexample: the constructible configuration
`custom(epoch 0, time 1, node 31, shard 30, tag 0)` has field widths
summing to 75 > 64, yet `next_id` does not silently truncate: its time
shift amount is `13 + 30 + 31 = 74 ≥ 64`, which aborts (debug-mode
shift overflow) instead of returning an identifier. -/
theorem width_overflow_counterexample :
    ((IdGenerator.new (.custom 0 1 31 30 0) 0).map
      (fun g => (next_id g 0 1 5).1)) = some (.error .shiftOverflow) ∧
    64 < 1 + 31 + 30 + 13 := ⟨rfl, by decide⟩

/-- C9 amended: for configurations whose individual shift amounts stay
legal (`epoch_bits < 64` and `13 + shard_bits + node_bits < 64`) —
in particular any over-wide configuration reachable in practice —
`next_id` raises no error at `millis ≥ epoch` and returns the packed
identifier in which only the high end of the time field is truncated
(to the `64 − (13 + shard_bits + node_bits)` bits that fit), with node,
shard window, sequence and config tag packed as usual. -/
theorem width_overflow_truncates (g : IdGenerator) (counter node millis : Nat)
    (hsf : shiftSafe g)
    (hover : 64 < g.epoch_bits + g.node_bits + g.shard_bits + 13)
    (h : g.epoch ≤ millis) :
    (next_id g counter node millis).1 = .ok
      ((millis - g.epoch) % 2 ^ g.epoch_bits
          % 2 ^ (64 - (13 + g.shard_bits + g.node_bits))
          * 2 ^ (13 + g.shard_bits + g.node_bits)
        + node % 2 ^ g.node_bits * 2 ^ (13 + g.shard_bits)
        + counter % 2 ^ 10 * 2 ^ 3
        + g.config_id % 2 ^ 3) := by
  unfold next_id
  simp only [and_shift_mask]
  rw [generate_id_eq g node (counter % 2 ^ 10) millis hsf h,
    Nat.mod_eq_of_lt (Nat.mod_lt counter (show 0 < 2 ^ 10 by norm_num))]

/-- Witness for the truncation theorem: a custom configuration with
widths `37 + 14 + 5 + 13 = 69 > 64`. -/
theorem width_overflow_truncates_witness :
    (next_id { epoch := 0, epoch_bits := 37, node_bits := 14, shard_bits := 5,
               max_nodes := 16384, config_id := 2 } 0 1 5).1 = .ok
      ((5 - 0) % 2 ^ 37 % 2 ^ (64 - (13 + 5 + 14)) * 2 ^ (13 + 5 + 14)
        + 1 % 2 ^ 14 * 2 ^ (13 + 5) + 0 % 2 ^ 10 * 2 ^ 3 + 2 % 2 ^ 3) :=
  width_overflow_truncates
    { epoch := 0, epoch_bits := 37, node_bits := 14, shard_bits := 5,
      max_nodes := 16384, config_id := 2 } 0 1 5 (by decide) (by decide) (by decide)

/-- C10: for both named presets, `decode_id` is total on every input
(the shift-amount guard holds, so no shift aborts), and under the
short-epoch preset (`shard_bits = 0`) the decoded shard is 0. -/
theorem decode_id_total_presets (e id : Nat) :
    (decode_id (shortEpochMaxNodesGen e) id).isSome = true ∧
    (decode_id (shardedGen e) id).isSome = true ∧
    (decode_id (shortEpochMaxNodesGen e) id).map DecodedId.shard_id = some 0 := by
  refine ⟨?_, ?_, ?_⟩
  · rw [decode_id_eq _ _ (shortEpoch_shiftSafe e)]
    rfl
  · rw [decode_id_eq _ _ (sharded_shiftSafe e)]
    rfl
  · rw [decode_id_eq _ _ (shortEpoch_shiftSafe e)]
    rfl

/-- Dividing away the low `K` bits of a decomposed value. -/
theorem div_extract (K hi r x : Nat) (hx : x = hi * 2 ^ K + r) (hr : r < 2 ^ K) :
    x / 2 ^ K = hi := by
  subst hx
  rw [Nat.mul_comm, Nat.mul_add_div (Nat.two_pow_pos _), Nat.div_eq_of_lt hr, Nat.add_zero]

/-- A shard value below `2 ^ sb`, shifted to offset 13, plus low bits,
stays below the window top `2 ^ (13 + sb)`. -/
theorem window_rem_lt (sb s lo : Nat) (hs : s < 2 ^ sb) (hlo : lo < 2 ^ 13) :
    s * 2 ^ 13 + lo < 2 ^ (13 + sb) := by
  calc s * 2 ^ 13 + lo < s * 2 ^ 13 + 2 ^ 13 := Nat.add_lt_add_left hlo _
    _ = (s + 1) * 2 ^ 13 := by ring
    _ ≤ 2 ^ sb * 2 ^ 13 := Nat.mul_le_mul_right _ (Nat.succ_le_of_lt hs)
    _ = 2 ^ (13 + sb) := by rw [← pow_add]; congr 1; omega

/-- Bit `j` of `y / 2 ^ k` is bit `k + j` of `y`. -/
theorem testBit_div_pow (y k j : Nat) : (y / 2 ^ k).testBit j = y.testBit (k + j) := by
  rw [← Nat.shiftRight_eq_div_pow, Nat.testBit_shiftRight]

/-- C3: for a configuration with `shard_bits > 0` (and legal shift
amounts), `derive_sharded_id` writes the in-range shard into the bit
window at offset 13 and width `shard_bits` and leaves every bit outside
that window identical to the original; consequently deriving twice with
`s1` then `s2` leaves the decoded time, node, sequence and config tag
equal to the original's and sets the decoded shard to `s2`. -/
theorem derive_sharded_id_frame (g : IdGenerator) (original s1 s2 : Nat)
    (hsb : 0 < g.shard_bits) (hsf : shiftSafe g) (ho : original < 2 ^ 64)
    (h1u16 : s1 < 2 ^ 16) (h2u16 : s2 < 2 ^ 16)
    (h1 : s1 < 2 ^ g.shard_bits) (h2 : s2 < 2 ^ g.shard_bits) :
    ∃ x1 x2, derive_sharded_id g original s1 = .ok x1 ∧
      derive_sharded_id g x1 s2 = .ok x2 ∧
      (∀ j, j < g.shard_bits → x1.testBit (13 + j) = s1.testBit j) ∧
      (∀ i, i < 13 ∨ 13 + g.shard_bits ≤ i → x1.testBit i = original.testBit i) ∧
      (∀ d2 d0, decode_id g x2 = some d2 → decode_id g original = some d0 →
        d2.time = d0.time ∧ d2.node_id = d0.node_id ∧
        d2.incrementing_id = d0.incrementing_id ∧ d2.config_id = d0.config_id ∧
        d2.shard_id = s2) := by
  have hw : 13 + g.shard_bits ≤ 64 := by
    have := hsf.2
    omega
  have p2 : (2 : Nat) ^ (13 + g.shard_bits) = 2 ^ g.shard_bits * 2 ^ 13 := by
    rw [← pow_add]; congr 1; omega
  have hlo : original % 2 ^ 13 < 2 ^ 13 := Nat.mod_lt _ (Nat.two_pow_pos _)
  have hhi : original / 2 ^ (13 + g.shard_bits) < 2 ^ (64 - (13 + g.shard_bits)) := by
    rw [Nat.div_lt_iff_lt_mul (Nat.two_pow_pos _), ← pow_add,
      show 64 - (13 + g.shard_bits) + (13 + g.shard_bits) = 64 by omega]
    exact ho
  have hd1 := derive_sharded_id_eq g original s1 hsb hw ho h1
  have hx1lt : original / 2 ^ (13 + g.shard_bits) * 2 ^ (13 + g.shard_bits)
      + s1 * 2 ^ 13 + original % 2 ^ 13 < 2 ^ 64 := by
    calc original / 2 ^ (13 + g.shard_bits) * 2 ^ (13 + g.shard_bits)
          + s1 * 2 ^ 13 + original % 2 ^ 13
        = original / 2 ^ (13 + g.shard_bits) * 2 ^ (13 + g.shard_bits)
          + (s1 * 2 ^ 13 + original % 2 ^ 13) := by ring
      _ < original / 2 ^ (13 + g.shard_bits) * 2 ^ (13 + g.shard_bits)
          + 2 ^ (13 + g.shard_bits) :=
          Nat.add_lt_add_left (window_rem_lt _ _ _ h1 hlo) _
      _ = (original / 2 ^ (13 + g.shard_bits) + 1) * 2 ^ (13 + g.shard_bits) := by ring
      _ ≤ 2 ^ (64 - (13 + g.shard_bits)) * 2 ^ (13 + g.shard_bits) :=
          Nat.mul_le_mul_right _ (Nat.succ_le_of_lt hhi)
      _ = 2 ^ 64 := (pow64_split _ hw).symm
  have hd2 := derive_sharded_id_eq g
    (original / 2 ^ (13 + g.shard_bits) * 2 ^ (13 + g.shard_bits)
      + s1 * 2 ^ 13 + original % 2 ^ 13) s2 hsb hw hx1lt h2
  -- the low 13 bits, the shard window and the high bits of x1
  have e13 : (original / 2 ^ (13 + g.shard_bits) * 2 ^ (13 + g.shard_bits)
      + s1 * 2 ^ 13 + original % 2 ^ 13) % 2 ^ 13 = original % 2 ^ 13 :=
    field_extract_mod 13
      (original / 2 ^ (13 + g.shard_bits) * 2 ^ g.shard_bits + s1) _ _
      (by rw [p2]; ring) hlo
  have eK : (original / 2 ^ (13 + g.shard_bits) * 2 ^ (13 + g.shard_bits)
      + s1 * 2 ^ 13 + original % 2 ^ 13) / 2 ^ (13 + g.shard_bits)
      = original / 2 ^ (13 + g.shard_bits) :=
    div_extract _ _ (s1 * 2 ^ 13 + original % 2 ^ 13) _
      (by ring) (window_rem_lt _ _ _ h1 hlo)
  have es1 : (original / 2 ^ (13 + g.shard_bits) * 2 ^ (13 + g.shard_bits)
      + s1 * 2 ^ 13 + original % 2 ^ 13) / 2 ^ 13 % 2 ^ g.shard_bits = s1 :=
    field_extract 13 g.shard_bits (original / 2 ^ (13 + g.shard_bits)) s1 _ _
      (by rw [p2]; ring) hlo h1
  rw [eK, e13] at hd2
  refine ⟨_, _, hd1, hd2, ?_, ?_, ?_⟩
  · intro j hj
    calc Nat.testBit (original / 2 ^ (13 + g.shard_bits) * 2 ^ (13 + g.shard_bits)
          + s1 * 2 ^ 13 + original % 2 ^ 13) (13 + j)
        = Nat.testBit ((original / 2 ^ (13 + g.shard_bits) * 2 ^ (13 + g.shard_bits)
            + s1 * 2 ^ 13 + original % 2 ^ 13) / 2 ^ 13) j :=
          (testBit_div_pow _ 13 j).symm
      _ = Nat.testBit ((original / 2 ^ (13 + g.shard_bits) * 2 ^ (13 + g.shard_bits)
            + s1 * 2 ^ 13 + original % 2 ^ 13) / 2 ^ 13 % 2 ^ g.shard_bits) j := by
          rw [Nat.testBit_mod_two_pow]
          simp [hj]
      _ = s1.testBit j := by rw [es1]
  · intro i hi13
    rcases hi13 with hlt | hge
    · have t1 : ∀ y : Nat, y % 2 ^ 13 = original % 2 ^ 13 →
          Nat.testBit y i = Nat.testBit original i := by
        intro y hy
        have a1 : Nat.testBit (y % 2 ^ 13) i = Nat.testBit y i := by
          rw [Nat.testBit_mod_two_pow]
          simp [hlt]
        have a2 : Nat.testBit (original % 2 ^ 13) i = Nat.testBit original i := by
          rw [Nat.testBit_mod_two_pow]
          simp [hlt]
        rw [← a1, ← a2, hy]
      exact t1 _ e13
    · have t1 : ∀ y : Nat, y / 2 ^ (13 + g.shard_bits) = original / 2 ^ (13 + g.shard_bits) →
          Nat.testBit y i = Nat.testBit original i := by
        intro y hy
        have a1 := testBit_div_pow y (13 + g.shard_bits) (i - (13 + g.shard_bits))
        have a2 := testBit_div_pow original (13 + g.shard_bits) (i - (13 + g.shard_bits))
        rw [show 13 + g.shard_bits + (i - (13 + g.shard_bits)) = i by omega] at a1 a2
        rw [← a1, ← a2, hy]
      exact t1 _ eK
  · intro d2 d0 hdx2 hdx0
    rw [decode_id_eq g _ hsf] at hdx2 hdx0
    injection hdx2 with hdx2
    injection hdx0 with hdx0
    subst hdx2
    subst hdx0
    have e13x2 : (original / 2 ^ (13 + g.shard_bits) * 2 ^ (13 + g.shard_bits)
        + s2 * 2 ^ 13 + original % 2 ^ 13) % 2 ^ 13 = original % 2 ^ 13 :=
      field_extract_mod 13
        (original / 2 ^ (13 + g.shard_bits) * 2 ^ g.shard_bits + s2) _ _
        (by rw [p2]; ring) hlo
    have eKx2 : (original / 2 ^ (13 + g.shard_bits) * 2 ^ (13 + g.shard_bits)
        + s2 * 2 ^ 13 + original % 2 ^ 13) / 2 ^ (13 + g.shard_bits)
        = original / 2 ^ (13 + g.shard_bits) :=
      div_extract _ _ (s2 * 2 ^ 13 + original % 2 ^ 13) _
        (by ring) (window_rem_lt _ _ _ h2 hlo)
    have es2 : (original / 2 ^ (13 + g.shard_bits) * 2 ^ (13 + g.shard_bits)
        + s2 * 2 ^ 13 + original % 2 ^ 13) / 2 ^ 13 % 2 ^ g.shard_bits = s2 :=
      field_extract 13 g.shard_bits (original / 2 ^ (13 + g.shard_bits)) s2 _ _
        (by rw [p2]; ring) hlo h2
    have hts : (2 : Nat) ^ (13 + g.shard_bits) * 2 ^ g.node_bits
        = 2 ^ (13 + g.shard_bits + g.node_bits) := by
      rw [← pow_add]
    refine ⟨?_, ?_, ?_, ?_, ?_⟩
    · show _ / 2 ^ (13 + g.shard_bits + g.node_bits) % 2 ^ g.epoch_bits
        = _ / 2 ^ (13 + g.shard_bits + g.node_bits) % 2 ^ g.epoch_bits
      rw [← hts, ← Nat.div_div_eq_div_mul, ← Nat.div_div_eq_div_mul, eKx2]
    · show _ / 2 ^ (13 + g.shard_bits) % 2 ^ g.node_bits
        = _ / 2 ^ (13 + g.shard_bits) % 2 ^ g.node_bits
      rw [eKx2]
    · show _ / 2 ^ 3 % 2 ^ 10 = _ / 2 ^ 3 % 2 ^ 10
      rw [← Nat.mod_mul_right_div_self, ← Nat.mod_mul_right_div_self,
        show (2 : Nat) ^ 3 * 2 ^ 10 = 2 ^ 13 by norm_num, e13x2]
    · show _ % 2 ^ 3 = _ % 2 ^ 3
      rw [← Nat.mod_mod_of_dvd
          (original / 2 ^ (13 + g.shard_bits) * 2 ^ (13 + g.shard_bits)
            + s2 * 2 ^ 13 + original % 2 ^ 13)
          (show (2 : Nat) ^ 3 ∣ 2 ^ 13 by norm_num),
        ← Nat.mod_mod_of_dvd original (show (2 : Nat) ^ 3 ∣ 2 ^ 13 by norm_num), e13x2]
    · show (if 0 < g.shard_bits then _ % 2 ^ 16 else 0) = s2
      rw [if_pos hsb, es2, Nat.mod_eq_of_lt h2u16]

/-- Witness for the frame theorem: the sharded preset, an arbitrary
identifier, shards 3 then 7. -/
theorem derive_sharded_id_frame_witness :
    ∃ x1 x2, derive_sharded_id (shardedGen 0) 123456789 3 = .ok x1 ∧
      derive_sharded_id (shardedGen 0) x1 7 = .ok x2 ∧
      (∀ j, j < (shardedGen 0).shard_bits → x1.testBit (13 + j) = Nat.testBit 3 j) ∧
      (∀ i, i < 13 ∨ 13 + (shardedGen 0).shard_bits ≤ i →
        x1.testBit i = Nat.testBit 123456789 i) ∧
      (∀ d2 d0, decode_id (shardedGen 0) x2 = some d2 →
        decode_id (shardedGen 0) 123456789 = some d0 →
        d2.time = d0.time ∧ d2.node_id = d0.node_id ∧
        d2.incrementing_id = d0.incrementing_id ∧ d2.config_id = d0.config_id ∧
        d2.shard_id = 7) :=
  derive_sharded_id_frame (shardedGen 0) 123456789 3 7 (by decide)
    (sharded_shiftSafe 0) (by decide) (by decide) (by decide) (by decide) (by decide)

/-- The three fields below the time field stay below one unit of the
time shift. -/
theorem low_bits_lt (sb nb B C D : Nat)
    (hB : B < 2 ^ nb) (hC : C < 2 ^ 10) (hD : D < 2 ^ 3) :
    B * 2 ^ (13 + sb) + (C * 2 ^ 3 + D) < 2 ^ (13 + sb + nb) := by
  have hCD : C * 2 ^ 3 + D < 2 ^ 13 := by
    calc C * 2 ^ 3 + D < C * 2 ^ 3 + 2 ^ 3 := Nat.add_lt_add_left hD _
      _ = (C + 1) * 2 ^ 3 := by ring
      _ ≤ 2 ^ 10 * 2 ^ 3 := Nat.mul_le_mul_right _ (Nat.succ_le_of_lt hC)
      _ = 2 ^ 13 := by norm_num
  calc B * 2 ^ (13 + sb) + (C * 2 ^ 3 + D)
      < B * 2 ^ (13 + sb) + 2 ^ (13 + sb) :=
        Nat.add_lt_add_left
          (lt_of_lt_of_le hCD (Nat.pow_le_pow_right (by omega) (by omega))) _
    _ = (B + 1) * 2 ^ (13 + sb) := by ring
    _ ≤ 2 ^ nb * 2 ^ (13 + sb) := Nat.mul_le_mul_right _ (Nat.succ_le_of_lt hB)
    _ = 2 ^ (13 + sb + nb) := by rw [← pow_add]; congr 1; omega

/-- A packed identifier with a strictly smaller time field is strictly
smaller, whatever the remaining fields are. -/
theorem packed_lt_of_time_lt (sb nb T1 T2 B1 B2 C1v C2v D1 D2 : Nat)
    (hT : T1 < T2) (hB1 : B1 < 2 ^ nb) (hC1 : C1v < 2 ^ 10) (hD1 : D1 < 2 ^ 3) :
    T1 * 2 ^ (13 + sb + nb) + B1 * 2 ^ (13 + sb) + C1v * 2 ^ 3 + D1
      < T2 * 2 ^ (13 + sb + nb) + B2 * 2 ^ (13 + sb) + C2v * 2 ^ 3 + D2 := by
  calc T1 * 2 ^ (13 + sb + nb) + B1 * 2 ^ (13 + sb) + C1v * 2 ^ 3 + D1
      = T1 * 2 ^ (13 + sb + nb) + (B1 * 2 ^ (13 + sb) + (C1v * 2 ^ 3 + D1)) := by ring
    _ < T1 * 2 ^ (13 + sb + nb) + 2 ^ (13 + sb + nb) :=
        Nat.add_lt_add_left (low_bits_lt sb nb B1 C1v D1 hB1 hC1 hD1) _
    _ = (T1 + 1) * 2 ^ (13 + sb + nb) := by ring
    _ ≤ T2 * 2 ^ (13 + sb + nb) := Nat.mul_le_mul_right _ (Nat.succ_le_of_lt hT)
    _ ≤ T2 * 2 ^ (13 + sb + nb) + (B2 * 2 ^ (13 + sb) + (C2v * 2 ^ 3 + D2)) :=
        Nat.le_add_right _ _
    _ = T2 * 2 ^ (13 + sb + nb) + B2 * 2 ^ (13 + sb) + C2v * 2 ^ 3 + D2 := by ring

/-- A packed identifier with the same time, node and tag but a strictly
larger sequence is strictly larger. -/
theorem packed_lt_of_seq_lt (sb nb T B C1v C2v D : Nat) (hC : C1v < C2v) :
    T * 2 ^ (13 + sb + nb) + B * 2 ^ (13 + sb) + C1v * 2 ^ 3 + D
      < T * 2 ^ (13 + sb + nb) + B * 2 ^ (13 + sb) + C2v * 2 ^ 3 + D :=
  Nat.add_lt_add_right
    (Nat.add_lt_add_left (Nat.mul_lt_mul_of_pos_right hC (by norm_num)) _) D

/-- C7 counterexample: under the short-epoch preset with epoch 0, two
calls at strictly increasing milliseconds `2^37 − 1` then `2^37` with no
sequence wrap (sequence goes 0 to 1) return a strictly SMALLER second
identifier, because the elapsed time `2^37` is masked to 37 bits and
wraps to 0. -/
theorem next_id_monotonic_counterexample :
    (2 ^ 37 - 1 : Nat) < 2 ^ 37 ∧
    (0 % 1024 : Nat) < 1 % 1024 ∧
    (next_id (shortEpochMaxNodesGen 0) 0 1 (2 ^ 37 - 1)).1
      = .ok ((2 ^ 37 - 1) * 2 ^ 27 + 2 ^ 13 + 3) ∧
    (next_id (shortEpochMaxNodesGen 0) 0 1 (2 ^ 37 - 1)).2 = 1 ∧
    (next_id (shortEpochMaxNodesGen 0) 1 1 (2 ^ 37)).1 = .ok (2 ^ 13 + 8 + 3) ∧
    (2 ^ 13 + 8 + 3 : Nat) < (2 ^ 37 - 1) * 2 ^ 27 + 2 ^ 13 + 3 :=
  ⟨by decide, by decide, rfl, rfl, rfl, by decide⟩

/-- C7 amended: under a configuration within the 64-bit budget with
legal shift amounts, (a) two successive `next_id` calls at strictly
increasing milliseconds whose elapsed times still fit `epoch_bits`
(and with no sequence wrap between them) return strictly increasing
identifiers, and (b) within one millisecond, successive calls among the
first 1024 (counter below 1023) return strictly increasing identifiers. -/
theorem next_id_monotonic (g : IdGenerator) (node c m1 m2 m : Nat)
    (hsf : shiftSafe g)
    (hinv : g.epoch_bits + g.node_bits + g.shard_bits + 13 ≤ 64) :
    ((g.epoch ≤ m1 ∧ m1 < m2 ∧ m2 - g.epoch < 2 ^ g.epoch_bits ∧
        c % 2 ^ 10 < 1023) →
      ∃ x1 x2, (next_id g c node m1).1 = .ok x1 ∧
        (next_id g (next_id g c node m1).2 node m2).1 = .ok x2 ∧ x1 < x2) ∧
    ((g.epoch ≤ m ∧ c < 1023) →
      ∃ y1 y2, (next_id g c node m).1 = .ok y1 ∧
        (next_id g (next_id g c node m).2 node m).1 = .ok y2 ∧ y1 < y2) := by
  have hpow : (2 : Nat) ^ g.epoch_bits
      ≤ 2 ^ (64 - (13 + g.shard_bits + g.node_bits)) :=
    Nat.pow_le_pow_right (by omega) (by omega)
  constructor
  · rintro ⟨h1, h12, h2e, _⟩
    have h2 : g.epoch ≤ m2 := by omega
    have hm1lt : m1 - g.epoch < 2 ^ g.epoch_bits :=
      lt_of_lt_of_le (by omega) (Nat.le_of_lt h2e)
    have et1 : (m1 - g.epoch) % 2 ^ g.epoch_bits
        % 2 ^ (64 - (13 + g.shard_bits + g.node_bits)) = m1 - g.epoch := by
      rw [Nat.mod_eq_of_lt hm1lt]
      exact Nat.mod_eq_of_lt (lt_of_lt_of_le hm1lt hpow)
    have et2 : (m2 - g.epoch) % 2 ^ g.epoch_bits
        % 2 ^ (64 - (13 + g.shard_bits + g.node_bits)) = m2 - g.epoch := by
      rw [Nat.mod_eq_of_lt h2e]
      exact Nat.mod_eq_of_lt (lt_of_lt_of_le h2e hpow)
    refine ⟨(m1 - g.epoch) % 2 ^ g.epoch_bits
        % 2 ^ (64 - (13 + g.shard_bits + g.node_bits))
        * 2 ^ (13 + g.shard_bits + g.node_bits)
        + node % 2 ^ g.node_bits * 2 ^ (13 + g.shard_bits)
        + c % 2 ^ 10 % 2 ^ 10 * 2 ^ 3 + g.config_id % 2 ^ 3,
      (m2 - g.epoch) % 2 ^ g.epoch_bits
        % 2 ^ (64 - (13 + g.shard_bits + g.node_bits))
        * 2 ^ (13 + g.shard_bits + g.node_bits)
        + node % 2 ^ g.node_bits * 2 ^ (13 + g.shard_bits)
        + (c + 1) % 65536 % 2 ^ 10 % 2 ^ 10 * 2 ^ 3 + g.config_id % 2 ^ 3, ?_, ?_, ?_⟩
    · unfold next_id
      simp only [and_shift_mask]
      exact generate_id_eq g node (c % 2 ^ 10) m1 hsf h1
    · show (next_id g ((c + 1) % 65536) node m2).1 = _
      unfold next_id
      simp only [and_shift_mask]
      exact generate_id_eq g node ((c + 1) % 65536 % 2 ^ 10) m2 hsf h2
    · rw [et1, et2]
      exact packed_lt_of_time_lt g.shard_bits g.node_bits _ _ _ _ _ _ _ _
        (by omega) (Nat.mod_lt _ (Nat.two_pow_pos _))
        (Nat.mod_lt _ (by norm_num)) (Nat.mod_lt _ (by norm_num))
  · rintro ⟨hm, hc⟩
    have ec1 : c % 2 ^ 10 % 2 ^ 10 = c := by
      rw [Nat.mod_eq_of_lt (lt_trans hc (by norm_num)),
        Nat.mod_eq_of_lt (lt_trans hc (by norm_num))]
    have ec2 : (c + 1) % 65536 % 2 ^ 10 % 2 ^ 10 = c + 1 := by
      have s1 : c + 1 < 65536 := by omega
      have s2 : c + 1 < 2 ^ 10 := by
        calc c + 1 < 1024 := by omega
          _ = 2 ^ 10 := by norm_num
      rw [Nat.mod_eq_of_lt s1, Nat.mod_eq_of_lt s2, Nat.mod_eq_of_lt s2]
    refine ⟨(m - g.epoch) % 2 ^ g.epoch_bits
        % 2 ^ (64 - (13 + g.shard_bits + g.node_bits))
        * 2 ^ (13 + g.shard_bits + g.node_bits)
        + node % 2 ^ g.node_bits * 2 ^ (13 + g.shard_bits)
        + c % 2 ^ 10 % 2 ^ 10 * 2 ^ 3 + g.config_id % 2 ^ 3,
      (m - g.epoch) % 2 ^ g.epoch_bits
        % 2 ^ (64 - (13 + g.shard_bits + g.node_bits))
        * 2 ^ (13 + g.shard_bits + g.node_bits)
        + node % 2 ^ g.node_bits * 2 ^ (13 + g.shard_bits)
        + (c + 1) % 65536 % 2 ^ 10 % 2 ^ 10 * 2 ^ 3 + g.config_id % 2 ^ 3, ?_, ?_, ?_⟩
    · unfold next_id
      simp only [and_shift_mask]
      exact generate_id_eq g node (c % 2 ^ 10) m hsf hm
    · show (next_id g ((c + 1) % 65536) node m).1 = _
      unfold next_id
      simp only [and_shift_mask]
      exact generate_id_eq g node ((c + 1) % 65536 % 2 ^ 10) m hsf hm
    · rw [ec1, ec2]
      exact packed_lt_of_seq_lt g.shard_bits g.node_bits _ _ _ _ _
        (Nat.lt_succ_self c)

/-- Witness for the monotonicity theorem: the short-epoch preset with
epoch 0, node 1, sequence counter 5, milliseconds 10 then 11. -/
theorem next_id_monotonic_witness :
    ∃ x1 x2, (next_id (shortEpochMaxNodesGen 0) 5 1 10).1 = .ok x1 ∧
      (next_id (shortEpochMaxNodesGen 0)
        (next_id (shortEpochMaxNodesGen 0) 5 1 10).2 1 11).1 = .ok x2 ∧
      x1 < x2 :=
  (next_id_monotonic (shortEpochMaxNodesGen 0) 1 5 10 11 20
    (by decide) (by decide)).1 ⟨by decide, by decide, by decide, by decide⟩

end GenId
